import Mathlib

/-!
# Shallow embedding of `mcconfig.py`

`mcconfig.py` scans the three Japanese digital-broadcast bands (GR = terrestrial,
BS and CS = satellite) by driving the external `recpt1` tuner-capture binary and
the `epgdump` EPG decoder, parses the resulting EPG XML into channel records,
deduplicates them per band, and emits the final list.

The embedding below translates each Python function of the source into a Lean
function of the same name.  Python exceptions are modelled with `Except PyErr`;
Python `None`-able strings with `Option String`; the external process pipeline
(`recpt1 | epgdump` followed by `etree.parse`) is modelled by an environment
function giving, per scan task, either the parsed list of `<channel>` elements
or the `XMLSyntaxError` that `etree.parse` raises on malformed/empty output.
-/

/-- The Python exceptions that the embedded code can raise. -/
inductive PyErr where
  /-- `KeyError`: dict (or lxml attribute) lookup of a missing key. -/
  | keyError
  /-- `TypeError`: e.g. `int(None)`, or `re.split` applied to `None`. -/
  | typeError
  /-- `ValueError`: `int()` applied to a non-numeric string. -/
  | valueError
  /-- `lxml.etree.XMLSyntaxError`: `etree.parse` on malformed or empty input. -/
  | xmlSyntaxError
  /-- `IndexError`: subscripting an empty list. -/
  | indexError
deriving DecidableEq, Repr

instance {ε α : Type} [DecidableEq ε] [DecidableEq α] : DecidableEq (Except ε α) :=
  fun a b =>
    match a, b with
    | .error e, .error e' =>
      match decEq e e' with
      | .isTrue h => .isTrue (by rw [h])
      | .isFalse h => .isFalse (by intro hc; cases hc; exact h rfl)
    | .ok x, .ok y =>
      match decEq x y with
      | .isTrue h => .isTrue (by rw [h])
      | .isFalse h => .isFalse (by intro hc; cases hc; exact h rfl)
    | .error _, .ok _ => .isFalse (by intro hc; cases hc)
    | .ok _, .error _ => .isFalse (by intro hc; cases hc)

/-! ## The natural-sort key (`natsort_for_channel`, lines 119-124)

`natural_keys` applies `atoi` to every piece of `re.split(r'(\d+)', text)`:
maximal digit runs become Python `int`s, everything between them stays a
string.  A Python key list therefore alternates `str` and `int` entries,
starting and ending with a (possibly empty) `str` entry. -/

/-- One entry of a Python sort-key list: either an `int` (a converted digit
run) or a `str` piece. -/
inductive PyKey where
  | num (n : Int)
  | str (s : String)
deriving DecidableEq, Repr

/-- Value of a run of decimal digits, most significant first (Python `int` of a
digit string; leading zeros allowed). -/
def digitsToInt (ds : List Char) : Int :=
  ds.foldl (fun acc c => 10 * acc + ((c.toNat : Int) - 48)) 0

/-- `re.split(r'(\d+)', text)` on the character list of `text`:
returns the leading non-digit piece together with the list of
(maximal digit run, following non-digit piece) pairs, in order.
E.g. `"BS1_0"` ↦ `("BS", [("1", "_"), ("0", "")])`. -/
def splitChunks : List Char → List Char × List (List Char × List Char)
  | [] => ([], [])
  | c :: cs =>
    let r := splitChunks cs
    if c.isDigit then
      match r with
      | ([], (d, s) :: ps) => ([], (c :: d, s) :: ps)
      | (s, ps) => ([], ([c], s) :: ps)
    else
      (c :: r.1, r.2)

/-- `natural_keys(text)` (line 122-123): `[atoi(c) for c in re.split(r'(\d+)', text)]`.
Digit runs (which satisfy `str.isdigit`) are converted with `int`, the other
pieces (which contain no digit, so fail `str.isdigit`) stay strings. -/
def natural_keys (text : String) : List PyKey :=
  let r := splitChunks text.data
  .str (String.mk r.1) :: r.2.flatMap (fun p => [.num (digitsToInt p.1), .str (String.mk p.2)])

/-- Python `<` on two strings: lexicographic comparison of the code-point
sequences, a strict prefix being smaller. -/
def pyStrLt : List Char → List Char → Bool
  | [], [] => false
  | [], _ :: _ => true
  | _ :: _, [] => false
  | c :: cs, d :: ds => decide (c < d) || (decide (c = d) && pyStrLt cs ds)

/-- Python `<` on two sort-key entries.  The mixed `int`/`str` cases would
raise `TypeError` in Python 3; they can never arise between two
`natural_keys` results, because both key lists alternate `str`/`int` starting
with `str`, so entries at equal positions have equal shape.  They are
totalised here (int before str) so that the comparator is a strict total
order on all of `PyKey`. -/
def keyChunkLt : PyKey → PyKey → Bool
  | .num a, .num b => decide (a < b)
  | .str a, .str b => pyStrLt a.data b.data
  | .num _, .str _ => true
  | .str _, .num _ => false

/-- Python `<` on two sort-key lists: lexicographic, a strict prefix is
smaller. -/
def keyLt : List PyKey → List PyKey → Bool
  | [], [] => false
  | [], _ :: _ => true
  | _ :: _, [] => false
  | a :: as, b :: bs => keyChunkLt a b || (decide (a = b) && keyLt as bs)

/-! ## The channel-type catalog (classes `ChannelType`, `GRChannel`,
`BSChannel`, `CSChannel`, lines 21-79) -/

/-- The closed set of broadcast bands: the three `ChannelType` subclasses. -/
inductive ChType where
  | gr
  | bs
  | cs
deriving DecidableEq, Repr

/-- `name(self)` of each subclass. -/
def ChType.name : ChType → String
  | .gr => "GR"
  | .bs => "BS"
  | .cs => "CS"

/-- `format_recorder(self, ch)` of each subclass:
GR: `"%d" % ch`; BS: `"BS%d_0"`; CS: `"CS%d"`. -/
def ChType.format_recorder : ChType → Nat → String
  | .gr, ch => toString ch
  | .bs, ch => "BS" ++ toString ch ++ "_0"
  | .cs, ch => "CS" ++ toString ch

/-- `epgdump_mode(self, ch)` of each subclass:
GR: `str(ch)`; BS: the literal `/BS`; CS: the literal `/CS`. -/
def ChType.epgdump_mode : ChType → Nat → String
  | .gr, ch => toString ch
  | .bs, _ => "/BS"
  | .cs, _ => "/CS"

/-- `channels(self)` of each subclass: GR: `range(13, 53)`;
BS: `range(1, 25, 2)`; CS: `range(2, 25, 2)`. -/
def ChType.channels : ChType → List Nat
  | .gr => List.range' 13 40
  | .bs => List.range' 1 12 2
  | .cs => List.range' 2 12 2

/-- The dict built by `ChannelType.chdef(self, ch)` (lines 22-27). -/
structure ChDefBase where
  type : String
  ch_rec : String
  epgdump_mode : String
deriving DecidableEq, Repr

/-- `chdef(self, ch)`: `{'type': name(), 'ch_rec': format_recorder(ch),
'epgdump_mode': epgdump_mode(ch)}`. -/
def ChType.chdef (t : ChType) (ch : Nat) : ChDefBase :=
  { type := t.name, ch_rec := t.format_recorder ch, epgdump_mode := t.epgdump_mode ch }

/-- The parsed command-line arguments (lines 153-161).  The three band flags
are `argparse` `store_true` options, so only their presence is recorded — the
order in which they were given on the command line is not representable in
this structure. -/
structure Args where
  gr : Bool
  bs : Bool
  cs : Bool
  seconds : Int
  tuners : Int
  recpt1 : String
  epgdump : String
deriving DecidableEq, Repr

/-- A fully resolved scan task: the `chdef` dict after `mix_args` added the
`recpt1`, `epgdump` and `seconds` entries (lines 113-117). -/
structure ChDef extends ChDefBase where
  recpt1 : String
  epgdump : String
  seconds : Int
deriving DecidableEq, Repr

/-- `mix_args(chdef, args)` (lines 113-117). -/
def mix_args (c : ChDefBase) (args : Args) : ChDef :=
  { toChDefBase := c, recpt1 := args.recpt1, epgdump := args.epgdump, seconds := args.seconds }

/-! ## XML parsing (`xml_to_epg`, lines 93-108) -/

/-- One `<channel>` element of the epgdump output XML, as lxml presents it:
the `tp` attribute (`none` when the attribute is absent, in which case
`channel.attrib['tp']` raises `KeyError`), and the child elements as
(tag, text) pairs in document order.  lxml's `.text` of an empty element is
`None`, hence `Option String`. -/
structure XmlChannel where
  tp : Option String
  children : List (String × Option String)
deriving DecidableEq, Repr

/-- The produced channel record: the dict built at lines 98-104.  The
`del ch['serviceId']` at lines 105-106 is unreachable (see `xml_to_epg`), so
the `serviceId` entry is always present, with an `int` value. -/
structure ChRecord where
  type : String
  name : Option String
  channel : Option String
  serviceId : Int
  isDisabled : Bool
deriving DecidableEq, Repr

/-- Builds the `ch_spec` dict (lines 94-96): it starts as
`{'tp': channel.attrib['tp']}` and then each child's text is assigned under
the child's tag, later children overwriting earlier entries with the same
tag.  Modelled as a prepend-list whose *first* entry per key is the last
write. -/
def build_ch_spec (tp : String) (children : List (String × Option String)) :
    List (String × Option String) :=
  children.foldl (fun m ti => (ti.1, ti.2) :: m) [("tp", some tp)]

/-- Python dict subscript `m[k]`: the most recent write wins; a missing key
raises `KeyError`. -/
def pyDictGet (m : List (String × Option String)) (k : String) :
    Except PyErr (Option String) :=
  match m.find? (fun p => p.1 = k) with
  | none => .error .keyError
  | some p => .ok p.2

/-- Python `int(s)` on a string: optional surrounding spaces, an optional
sign, then one or more decimal digits; anything else raises `ValueError`.
(Python's further tolerance for underscores between digits and for non-ASCII
digits is not modelled; EPG service identifiers are plain decimal.) -/
def pyInt (s : String) : Except PyErr Int :=
  let cs := ((s.data.dropWhile (· = ' ')).reverse.dropWhile (· = ' ')).reverse
  match cs with
  | '-' :: ds =>
    if ds ≠ [] ∧ ds.all Char.isDigit then .ok (-(digitsToInt ds)) else .error .valueError
  | '+' :: ds =>
    if ds ≠ [] ∧ ds.all Char.isDigit then .ok (digitsToInt ds) else .error .valueError
  | ds =>
    if ds ≠ [] ∧ ds.all Char.isDigit then .ok (digitsToInt ds) else .error .valueError

/-- Python `int(x)` where `x` is a dict value that may be `None`:
`int(None)` raises `TypeError`. -/
def pyIntOfText : Option String → Except PyErr Int
  | none => .error .typeError
  | some s => pyInt s

/-- `xml_to_epg(chdef, channel)` (lines 93-108).  The dict literal at lines
98-104 evaluates its values left to right, so the lookups happen in the order
`display-name`, `tp`, `service_id`, each able to raise `KeyError`, and then
`int()` runs on the `service_id` text.  Because `int(None)` raises
`TypeError`, the `if ch_spec['service_id'] is None: del ch['serviceId']`
branch at lines 105-106 can never fire, and every returned record carries an
integer `serviceId`. -/
def xml_to_epg (chdef : ChDef) (channel : XmlChannel) : Except PyErr ChRecord := do
  let tp ← match channel.tp with
    | some t => Except.ok t
    | none => Except.error .keyError
  let ch_spec := build_ch_spec tp channel.children
  let name ← pyDictGet ch_spec "display-name"
  let chan ← pyDictGet ch_spec "tp"
  let sidText ← pyDictGet ch_spec "service_id"
  let sid ← pyIntOfText sidText
  Except.ok { type := chdef.type, name := name, channel := chan,
              serviceId := sid, isDisabled := false }

/-! ## The capture pipeline (`get_epg_from_record`, lines 81-91)

The two `Popen` calls and the pipe wiring are external-process plumbing; the
embedding starts from the result of `etree.parse(p_epgdump.stdout)`: either
the list of `<channel>` elements found in well-formed XML, or the
`XMLSyntaxError` that `etree.parse` raises on malformed or empty output
(there is no `try`/`except` in the source, so that exception propagates). -/

/-- `get_epg_from_record(chdef)` (lines 81-91), as a function of the parse
result of the dump process's output. -/
def get_epg_from_record (chdef : ChDef)
    (parsed : Except PyErr (List XmlChannel)) : Except PyErr (List ChRecord) := do
  let root ← parsed
  root.mapM (xml_to_epg chdef)

/-- `get_epg_for_channel(chdef)` (lines 110-111): delegates to
`get_epg_from_record`. -/
def get_epg_for_channel (chdef : ChDef)
    (parsed : Except PyErr (List XmlChannel)) : Except PyErr (List ChRecord) :=
  get_epg_from_record chdef parsed

/-! ## Sorting and deduplication (lines 119-149) -/

/-- `natsort_for_channel(i)` (lines 119-124): the sort key of a record is
`natural_keys(i['channel'])`.  When `i['channel']` is `None`,
`re.split` raises `TypeError`. -/
def natsort_for_channel (i : ChRecord) : Except PyErr (List PyKey) :=
  match i.channel with
  | none => .error .typeError
  | some s => .ok (natural_keys s)

/-- The comparator `sorted(..., key=natsort_for_channel)` sorts by: `a` may
stay before `b` iff not `key(b) < key(a)` (Python's stable sort uses `<` on
the key lists).  The `getD ""` default is never consulted where this
comparator is used: `pySortedByChannel` first evaluates every key and
propagates the `TypeError` raised for a `None` channel. -/
def chanLe (a b : ChRecord) : Bool :=
  !keyLt (natural_keys (b.channel.getD "")) (natural_keys (a.channel.getD ""))

/-- `sorted(l, key=natsort_for_channel)`: Python's `sorted` evaluates the key
of every element first (raising if any key computation raises), then performs
a stable sort comparing key lists. -/
def pySortedByChannel (l : List ChRecord) : Except PyErr (List ChRecord) := do
  let _ ← l.mapM natsort_for_channel
  pure (l.mergeSort chanLe)

/-- `key_func = lambda i: i['serviceId']` (line 138). -/
def key_func (i : ChRecord) : Int := i.serviceId

/-- `itertools.groupby(data, key=key_func)`: splits a list into maximal runs
of adjacent elements with equal key.  Every emitted run is nonempty. -/
def groupRuns (key : ChRecord → Int) : List ChRecord → List (List ChRecord)
  | [] => []
  | a :: l =>
    match groupRuns key l with
    | [] => [[a]]
    | g :: gs =>
      match g.head? with
      | some b => if key a = key b then (a :: g) :: gs else [a] :: g :: gs
      | none => [a] :: g :: gs

/-- Python truthiness of `i['name']`: `None` and `""` are falsy. -/
def pyTruthy : Option String → Bool
  | none => false
  | some s => decide (s ≠ "")

/-- `find_nonnull_ch(g)` (lines 140-146): the first record of the group with
a truthy name, else the first record of the group.  `gl[0]` on an empty
group would raise `IndexError`; `groupby` only yields nonempty groups, which
is modelled by returning `none` in that unreachable case. -/
def find_nonnull_ch (gl : List ChRecord) : Option ChRecord :=
  match gl.filter (fun i => pyTruthy i.name) with
  | l0 :: _ => some l0
  | [] => gl.head?

/-- `remove_duplicate_service(chtype, channels)` (lines 134-149).
GR: no dedup, only the natural sort on the recorder string.  Other bands:
stable-sort by `serviceId`, group adjacent records with equal `serviceId`,
keep `find_nonnull_ch` of each group, then the natural sort. -/
def remove_duplicate_service (chtype : String) (channels : List ChRecord) :
    Except PyErr (List ChRecord) :=
  if chtype = "GR" then
    pySortedByChannel channels
  else
    let data := channels.mergeSort (fun a b => decide (key_func a ≤ key_func b))
    let result := (groupRuns key_func data).filterMap find_nonnull_ch
    pySortedByChannel result

/-! ## Dispatch and orchestration (lines 126-131 and 152-178) -/

/-- The task list built at line 127:
`[mix_args(chtype.chdef(ch), args) for ch in chtype.channels()]`. -/
def scan_tasks (chtype : ChType) (args : Args) : List ChDef :=
  chtype.channels.map (fun ch => mix_args (chtype.chdef ch) args)

/-- The per-task results of `pool.imap_unordered(get_epg_for_channel,
channels, 4)` in submission order; the pool delivers them in an unspecified
completion order, modelled by quantifying theorems over permutations of this
list.  `env` maps a task to the `etree.parse` outcome of its external
pipeline. -/
def pool_imap_results (tasks : List ChDef)
    (env : ChDef → Except PyErr (List XmlChannel)) :
    List (Except PyErr (List ChRecord)) :=
  tasks.map (fun c => get_epg_for_channel c (env c))

/-- Consuming the `imap_unordered` iterator: a worker's exception is
re-raised in the parent when that task's result is reached. -/
def collect : List (Except PyErr (List ChRecord)) → Except PyErr (List (List ChRecord))
  | [] => .ok []
  | .error e :: _ => .error e
  | .ok a :: rs => (collect rs).map (a :: ·)

/-- The comprehension at lines 128-131:
`[c for ch in ... if len(ch) > 0 for c in ch if ch]`. -/
def gather (results : List (List ChRecord)) : List ChRecord :=
  (results.filter (fun ch => decide (0 < ch.length))).flatMap
    (fun ch => if ch.isEmpty then [] else ch)

/-- `get_epg_for_chtype_mp(pool, chtype, args)` (lines 126-132), as a
function of the completion-ordered result list delivered by the pool. -/
def get_epg_for_chtype_mp (chtype : ChType) (_args : Args)
    (completion : List (Except PyErr (List ChRecord))) : Except PyErr (List ChRecord) := do
  let results ← collect completion
  remove_duplicate_service chtype.name (gather results)

/-- A band-selection flag on the command line. -/
inductive BandFlag where
  | gr
  | bs
  | cs
deriving DecidableEq, Repr

/-- The `ChannelType` a flag enables. -/
def flagChType : ChType → BandFlag
  | .gr => .gr
  | .bs => .bs
  | .cs => .cs

/-- `argparse` parsing of the band flags (lines 153-161): each `store_true`
flag records only whether it occurred somewhere on the command line, and the
remaining options keep their defaults here. -/
def parse_args (argv : List BandFlag) : Args :=
  { gr := argv.contains .gr, bs := argv.contains .bs, cs := argv.contains .cs,
    seconds := 30, tuners := 4,
    recpt1 := "/usr/local/bin/recpt1", epgdump := "/usr/local/bin/epgdump" }

/-- The `chtypes` list built at lines 163-166: appended in the fixed textual
order GR, BS, CS of the three `if` statements. -/
def main_chtypes (args : Args) : List ChType :=
  (if args.gr then [ChType.gr] else []) ++
  (if args.bs then [ChType.bs] else []) ++
  (if args.cs then [ChType.cs] else [])

/-- `all_definitions` (lines 173-176): the per-type results of
`get_epg_for_chtype_mp`, concatenated in `chtypes` order. -/
def all_definitions (args : Args)
    (completion : ChType → List (Except PyErr (List ChRecord))) :
    Except PyErr (List ChRecord) := do
  let per ← (main_chtypes args).mapM (fun t => get_epg_for_chtype_mp t args (completion t))
  pure per.flatten

/-! ## Order-theoretic facts about the natural-sort comparator -/

theorem pyStrLt_trans : ∀ {a b c : List Char}, pyStrLt a b = true →
    pyStrLt b c = true → pyStrLt a c = true
  | [], [], _, h1, _ => by simp [pyStrLt] at h1
  | [], _ :: _, [], _, h2 => by simp [pyStrLt] at h2
  | [], _ :: _, _ :: _, _, _ => by simp [pyStrLt]
  | _ :: _, [], _, h1, _ => by simp [pyStrLt] at h1
  | _ :: _, _ :: _, [], _, h2 => by simp [pyStrLt] at h2
  | a :: as, b :: bs, c :: cs, h1, h2 => by
    simp only [pyStrLt, Bool.or_eq_true, Bool.and_eq_true, decide_eq_true_eq] at h1 h2 ⊢
    rcases h1 with h1 | ⟨rfl, h1⟩
    · rcases h2 with h2 | ⟨rfl, _⟩
      · exact Or.inl (lt_trans h1 h2)
      · exact Or.inl h1
    · rcases h2 with h2 | ⟨rfl, h2⟩
      · exact Or.inl h2
      · exact Or.inr ⟨rfl, pyStrLt_trans h1 h2⟩

theorem pyStrLt_irrefl : ∀ a : List Char, pyStrLt a a = false
  | [] => by simp [pyStrLt]
  | c :: cs => by simp [pyStrLt, pyStrLt_irrefl cs]

theorem pyStrLt_trichotomy : ∀ a b : List Char,
    pyStrLt a b = true ∨ a = b ∨ pyStrLt b a = true
  | [], [] => Or.inr (Or.inl rfl)
  | [], _ :: _ => Or.inl (by simp [pyStrLt])
  | _ :: _, [] => Or.inr (Or.inr (by simp [pyStrLt]))
  | a :: as, b :: bs => by
    simp only [pyStrLt, Bool.or_eq_true, Bool.and_eq_true, decide_eq_true_eq,
      List.cons.injEq]
    rcases lt_trichotomy a b with h | rfl | h
    · exact Or.inl (Or.inl h)
    · rcases pyStrLt_trichotomy as bs with h | rfl | h
      · exact Or.inl (Or.inr ⟨rfl, h⟩)
      · exact Or.inr (Or.inl ⟨rfl, rfl⟩)
      · exact Or.inr (Or.inr (Or.inr ⟨rfl, h⟩))
    · exact Or.inr (Or.inr (Or.inl h))

theorem keyChunkLt_trans {a b c : PyKey} (h1 : keyChunkLt a b = true)
    (h2 : keyChunkLt b c = true) : keyChunkLt a c = true := by
  cases a <;> cases b <;> cases c <;> simp_all [keyChunkLt] <;>
    first
      | exact lt_trans h1 h2
      | exact pyStrLt_trans h1 h2

theorem keyChunkLt_irrefl (a : PyKey) : keyChunkLt a a = false := by
  cases a <;> simp [keyChunkLt, pyStrLt_irrefl]

theorem keyChunkLt_trichotomy : ∀ a b : PyKey,
    keyChunkLt a b = true ∨ a = b ∨ keyChunkLt b a = true
  | .num a, .num b => by simpa [keyChunkLt] using Int.lt_trichotomy a b
  | .str a, .str b => by
    rcases pyStrLt_trichotomy a.data b.data with h | h | h
    · exact Or.inl (by simpa [keyChunkLt] using h)
    · exact Or.inr (Or.inl (by rw [show a = b from by apply String.ext; exact h]))
    · exact Or.inr (Or.inr (by simpa [keyChunkLt] using h))
  | .num _, .str _ => Or.inl (by simp [keyChunkLt])
  | .str _, .num _ => Or.inr (Or.inr (by simp [keyChunkLt]))

theorem keyLt_trans : ∀ {k1 k2 k3 : List PyKey}, keyLt k1 k2 = true →
    keyLt k2 k3 = true → keyLt k1 k3 = true
  | [], [], _, h1, _ => by simp [keyLt] at h1
  | [], _ :: _, [], _, h2 => by simp [keyLt] at h2
  | [], _ :: _, _ :: _, _, _ => by simp [keyLt]
  | _ :: _, [], _, h1, _ => by simp [keyLt] at h1
  | _ :: _, _ :: _, [], _, h2 => by simp [keyLt] at h2
  | a :: as, b :: bs, c :: cs, h1, h2 => by
    simp only [keyLt, Bool.or_eq_true, Bool.and_eq_true, decide_eq_true_eq] at h1 h2 ⊢
    rcases h1 with h1 | ⟨rfl, h1⟩
    · rcases h2 with h2 | ⟨rfl, _⟩
      · exact Or.inl (keyChunkLt_trans h1 h2)
      · exact Or.inl h1
    · rcases h2 with h2 | ⟨rfl, h2⟩
      · exact Or.inl h2
      · exact Or.inr ⟨rfl, keyLt_trans h1 h2⟩

theorem keyLt_irrefl : ∀ k : List PyKey, keyLt k k = false
  | [] => by simp [keyLt]
  | a :: as => by simp [keyLt, keyChunkLt_irrefl, keyLt_irrefl as]

theorem keyLt_asymm {k1 k2 : List PyKey} (h : keyLt k1 k2 = true) :
    keyLt k2 k1 = false := by
  by_contra hc
  have h2 : keyLt k2 k1 = true := by
    cases hk : keyLt k2 k1
    · exact absurd hk hc
    · rfl
  have := keyLt_trans h h2
  rw [keyLt_irrefl] at this
  exact Bool.false_ne_true this

theorem keyLt_trichotomy : ∀ k1 k2 : List PyKey,
    keyLt k1 k2 = true ∨ k1 = k2 ∨ keyLt k2 k1 = true
  | [], [] => Or.inr (Or.inl rfl)
  | [], _ :: _ => Or.inl (by simp [keyLt])
  | _ :: _, [] => Or.inr (Or.inr (by simp [keyLt]))
  | a :: as, b :: bs => by
    simp only [keyLt, Bool.or_eq_true, Bool.and_eq_true, decide_eq_true_eq]
    rcases keyChunkLt_trichotomy a b with h | rfl | h
    · exact Or.inl (Or.inl h)
    · rcases keyLt_trichotomy as bs with h | rfl | h
      · exact Or.inl (Or.inr ⟨rfl, h⟩)
      · exact Or.inr (Or.inl rfl)
      · exact Or.inr (Or.inr (Or.inr ⟨rfl, h⟩))
    · exact Or.inr (Or.inr (Or.inl h))

theorem chanLe_trans (a b c : ChRecord) (h1 : chanLe a b = true)
    (h2 : chanLe b c = true) : chanLe a c = true := by
  simp only [chanLe, Bool.not_eq_eq_eq_not, Bool.not_true] at h1 h2 ⊢
  by_contra hc
  have hca : keyLt (natural_keys (c.channel.getD "")) (natural_keys (a.channel.getD "")) = true := by
    cases hk : keyLt (natural_keys (c.channel.getD "")) (natural_keys (a.channel.getD ""))
    · exact absurd hk hc
    · rfl
  rcases keyLt_trichotomy (natural_keys (a.channel.getD "")) (natural_keys (b.channel.getD ""))
    with h | heq | h
  · have := keyLt_trans hca h
    rw [h2] at this
    exact Bool.false_ne_true this
  · rw [heq] at hca
    rw [h2] at hca
    exact Bool.false_ne_true hca
  · rw [h1] at h
    exact Bool.false_ne_true h

theorem chanLe_total (a b : ChRecord) : (chanLe a b || chanLe b a) = true := by
  simp only [chanLe, Bool.or_eq_true, Bool.not_eq_eq_eq_not, Bool.not_true]
  rcases hk : keyLt (natural_keys (b.channel.getD "")) (natural_keys (a.channel.getD ""))
  · exact Or.inl rfl
  · exact Or.inr (keyLt_asymm hk)

/-- The `serviceId` comparator used by `sorted(channels, key=key_func)`. -/
theorem sidLe_trans (a b c : ChRecord) (h1 : decide (key_func a ≤ key_func b) = true)
    (h2 : decide (key_func b ≤ key_func c) = true) :
    decide (key_func a ≤ key_func c) = true := by
  simp only [decide_eq_true_eq] at h1 h2 ⊢
  omega

theorem sidLe_total (a b : ChRecord) :
    (decide (key_func a ≤ key_func b) || decide (key_func b ≤ key_func a)) = true := by
  simp only [Bool.or_eq_true, decide_eq_true_eq]
  omega

/-! ## Structure of `groupby` runs -/

theorem groupRuns_flatten (key : ChRecord → Int) :
    ∀ l : List ChRecord, (groupRuns key l).flatten = l := by
  intro l
  induction l with
  | nil => rfl
  | cons a t ih =>
    cases hg : groupRuns key t with
    | nil =>
      rw [hg] at ih
      simp only [List.flatten_nil] at ih
      simp [groupRuns, hg, ← ih]
    | cons g gs =>
      rw [hg] at ih
      cases hh : g.head? with
      | none => simp only [groupRuns, hg, hh]; simpa using ih
      | some b =>
        by_cases hk : key a = key b
        · simp only [groupRuns, hg, hh, if_pos hk]
          simpa using ih
        · simp only [groupRuns, hg, hh, if_neg hk]
          simpa using ih

theorem groupRuns_ne_nil (key : ChRecord → Int) :
    ∀ l g, g ∈ groupRuns key l → g ≠ [] := by
  intro l
  induction l with
  | nil => intro g hg; simp [groupRuns] at hg
  | cons a t ih =>
    intro g hg
    cases hgt : groupRuns key t with
    | nil =>
      simp only [groupRuns, hgt, List.mem_singleton] at hg
      simp [hg]
    | cons g0 gs =>
      cases hh : g0.head? with
      | none =>
        simp only [groupRuns, hgt, hh] at hg
        rcases List.mem_cons.mp hg with rfl | hmem
        · simp
        · exact ih g (hgt ▸ hmem)
      | some b =>
        by_cases hk : key a = key b
        · simp only [groupRuns, hgt, hh, if_pos hk] at hg
          rcases List.mem_cons.mp hg with rfl | hmem
          · simp
          · exact ih g (hgt ▸ List.mem_cons_of_mem g0 hmem)
        · simp only [groupRuns, hgt, hh, if_neg hk] at hg
          rcases List.mem_cons.mp hg with rfl | hmem
          · simp
          · exact ih g (hgt ▸ hmem)

theorem groupRuns_key_const (key : ChRecord → Int) :
    ∀ l g, g ∈ groupRuns key l → ∀ x ∈ g, ∀ y ∈ g, key x = key y := by
  intro l
  induction l with
  | nil => intro g hg; simp [groupRuns] at hg
  | cons a t ih =>
    intro g hg x hx y hy
    cases hgt : groupRuns key t with
    | nil =>
      simp only [groupRuns, hgt, List.mem_singleton] at hg
      subst hg
      simp at hx hy
      rw [hx, hy]
    | cons g0 gs =>
      cases hh : g0.head? with
      | none =>
        simp only [groupRuns, hgt, hh] at hg
        rcases List.mem_cons.mp hg with rfl | hmem
        · simp at hx hy; rw [hx, hy]
        · exact ih g (hgt ▸ hmem) x hx y hy
      | some b =>
        have hb : b ∈ g0 := List.mem_of_mem_head? (hh ▸ rfl)
        have hg0 : g0 ∈ groupRuns key t := hgt ▸ List.mem_cons_self g0 gs
        by_cases hk : key a = key b
        · simp only [groupRuns, hgt, hh, if_pos hk] at hg
          rcases List.mem_cons.mp hg with rfl | hmem
          · have hxv : key x = key b := by
              rcases List.mem_cons.mp hx with rfl | hx0
              · exact hk
              · exact ih g0 hg0 x hx0 b hb
            have hyv : key y = key b := by
              rcases List.mem_cons.mp hy with rfl | hy0
              · exact hk
              · exact ih g0 hg0 y hy0 b hb
            rw [hxv, hyv]
          · exact ih g (hgt ▸ List.mem_cons_of_mem g0 hmem) x hx y hy
        · simp only [groupRuns, hgt, hh, if_neg hk] at hg
          rcases List.mem_cons.mp hg with rfl | hmem
          · simp at hx hy; rw [hx, hy]
          · exact ih g (hgt ▸ hmem) x hx y hy

/-- Sorting by `serviceId` makes the `groupby` runs pairwise disjoint in
`serviceId`: records in different runs have different keys. -/
theorem groupRuns_pairwise (key : ChRecord → Int) :
    ∀ l : List ChRecord, l.Pairwise (fun x y => key x ≤ key y) →
      (groupRuns key l).Pairwise (fun g h => ∀ x ∈ g, ∀ y ∈ h, key x ≠ key y) := by
  intro l
  induction l with
  | nil => intro _; simp [groupRuns]
  | cons a t ih =>
    intro hp
    have ha : ∀ y ∈ t, key a ≤ key y := (List.pairwise_cons.mp hp).1
    have ht : t.Pairwise (fun x y => key x ≤ key y) := (List.pairwise_cons.mp hp).2
    have iht := ih ht
    cases hgt : groupRuns key t with
    | nil => simp only [groupRuns, hgt]; exact List.pairwise_singleton _ _
    | cons g0 gs =>
      rw [hgt] at iht
      have hP0 : ∀ h ∈ gs, ∀ x ∈ g0, ∀ y ∈ h, key x ≠ key y :=
        (List.pairwise_cons.mp iht).1
      have hPgs := (List.pairwise_cons.mp iht).2
      have hflat : g0 ++ gs.flatten = t := by
        have := groupRuns_flatten key t
        rw [hgt] at this
        simpa using this
      cases hh : g0.head? with
      | none =>
        have : g0 ≠ [] :=
          groupRuns_ne_nil key t g0 (hgt ▸ List.mem_cons_self g0 gs)
        rw [List.head?_eq_none_iff] at hh
        exact absurd hh this
      | some b =>
        have hb : b ∈ g0 := List.mem_of_mem_head? (hh ▸ rfl)
        have hg0 : g0 ∈ groupRuns key t := hgt ▸ List.mem_cons_self g0 gs
        by_cases hk : key a = key b
        · simp only [groupRuns, hgt, hh, if_pos hk]
          refine List.pairwise_cons.mpr ⟨?_, hPgs⟩
          intro h hmem x hx y hy
          rcases List.mem_cons.mp hx with rfl | hx0
          · rw [hk]
            exact hP0 h hmem b hb y hy
          · exact hP0 h hmem x hx0 y hy
        · simp only [groupRuns, hgt, hh, if_neg hk]
          refine List.pairwise_cons.mpr ⟨?_, iht⟩
          intro h hmem x hx y hy
          rcases List.mem_singleton.mp hx with rfl
          rcases List.mem_cons.mp hmem with rfl | hmem'
          · have : key y = key b := groupRuns_key_const key t h hg0 y hy b hb
            rw [this]
            exact hk
          · have hby : key b ≤ key y := by
              have hyf : y ∈ gs.flatten := List.mem_flatten.mpr ⟨h, hmem', hy⟩
              have := (List.pairwise_append.mp (hflat ▸ ht)).2.2
              exact this b hb y hyf
            have hab : key x ≤ key b := ha b (hflat ▸ List.mem_append_left _ hb)
            have hxb : key x ≠ key b := hk
            omega

/-! ## Facts about `find_nonnull_ch` and result collection -/

theorem find_nonnull_ch_mem {g : List ChRecord} {r : ChRecord}
    (h : find_nonnull_ch g = some r) : r ∈ g := by
  unfold find_nonnull_ch at h
  cases hf : g.filter (fun i => pyTruthy i.name) with
  | nil =>
    simp only [hf] at h
    exact List.mem_of_mem_head? (Option.mem_def.mpr h)
  | cons l0 rest =>
    simp only [hf] at h
    have hr : l0 = r := by injection h
    subst hr
    exact List.mem_of_mem_filter (by rw [hf]; exact List.mem_cons_self l0 rest)

theorem find_nonnull_ch_isSome {g : List ChRecord} (h : g ≠ []) :
    ∃ r, find_nonnull_ch g = some r := by
  unfold find_nonnull_ch
  cases hf : g.filter (fun i => pyTruthy i.name) with
  | nil =>
    simp only [hf]
    cases g with
    | nil => exact absurd rfl h
    | cons a t => exact ⟨a, rfl⟩
  | cons l0 rest =>
    simp only [hf]
    exact ⟨l0, rfl⟩

theorem find_nonnull_ch_truthy {g : List ChRecord} {r : ChRecord}
    (hr : r ∈ g) (ht : pyTruthy r.name = true) :
    ∃ q, find_nonnull_ch g = some q ∧ pyTruthy q.name = true := by
  unfold find_nonnull_ch
  cases hf : g.filter (fun i => pyTruthy i.name) with
  | nil =>
    have : r ∈ g.filter (fun i => pyTruthy i.name) := List.mem_filter.mpr ⟨hr, ht⟩
    rw [hf] at this
    exact absurd this (List.not_mem_nil r)
  | cons l0 rest =>
    refine ⟨l0, rfl, ?_⟩
    have : l0 ∈ g.filter (fun i => pyTruthy i.name) := hf ▸ List.mem_cons_self l0 rest
    exact (List.mem_filter.mp this).2

/-- Pairwise transfer through `filterMap`. -/
theorem pairwise_filterMap_of {α β : Type} {f : α → Option β} {R : β → β → Prop}
    {l : List α}
    (h : l.Pairwise (fun g h' => ∀ x y, f g = some x → f h' = some y → R x y)) :
    (l.filterMap f).Pairwise R := by
  rw [List.pairwise_filterMap]
  exact h.imp (fun hgh x hx y hy => hgh x y hx hy)

theorem collect_perm {rs rs' : List (Except PyErr (List ChRecord))}
    (h : rs.Perm rs') :
    ∀ {l}, collect rs = .ok l → ∃ l', collect rs' = .ok l' ∧ l.Perm l' := by
  induction h with
  | nil => exact fun hc => ⟨_, hc, List.Perm.refl _⟩
  | @cons x l₁ l₂ h ih =>
    intro l hc
    cases x with
    | error e => simp [collect] at hc
    | ok a =>
      simp only [collect] at hc ⊢
      cases hcol : collect l₁ with
      | error e => rw [hcol] at hc; simp [Except.map] at hc
      | ok lt =>
        rw [hcol] at hc
        simp only [Except.map] at hc
        cases hc
        obtain ⟨l', hc', hp⟩ := ih hcol
        rw [hc']
        exact ⟨a :: l', rfl, List.Perm.cons a hp⟩
  | swap x y t =>
    intro l0 hc
    cases y with
    | error e =>
      simp [collect] at hc
    | ok b =>
      cases x with
      | error e' => simp [collect, Except.map] at hc
      | ok a =>
        simp only [collect] at hc ⊢
        cases hcol : collect t with
        | error e => rw [hcol] at hc; simp [Except.map] at hc
        | ok lt =>
          rw [hcol] at hc
          simp only [Except.map] at hc
          cases hc
          exact ⟨a :: b :: lt, rfl, List.Perm.swap a b lt⟩
  | trans h1 h2 ih1 ih2 =>
    intro l hc
    obtain ⟨l1, hc1, hp1⟩ := ih1 hc
    obtain ⟨l2, hc2, hp2⟩ := ih2 hc1
    exact ⟨l2, hc2, hp1.trans hp2⟩

/-! ## Facts about `pySortedByChannel` -/

theorem pySortedByChannel_ok {l out : List ChRecord}
    (h : pySortedByChannel l = .ok out) : out = l.mergeSort chanLe := by
  unfold pySortedByChannel at h
  cases hm : l.mapM natsort_for_channel with
  | error e =>
    rw [hm] at h
    exact Except.noConfusion h
  | ok ks =>
    rw [hm] at h
    exact (Except.ok.inj h).symm

theorem mapM_natsort_ok : ∀ {l : List ChRecord}, (∀ r ∈ l, r.channel ≠ none) →
    ∃ ks, l.mapM natsort_for_channel = Except.ok ks
  | [], _ => ⟨[], rfl⟩
  | a :: t, h => by
    have ha := h a (List.mem_cons_self a t)
    obtain ⟨s, hs⟩ : ∃ s, a.channel = some s := by
      cases hc : a.channel with
      | none => exact absurd hc ha
      | some s => exact ⟨s, rfl⟩
    obtain ⟨ks, hks⟩ := mapM_natsort_ok (fun r hr => h r (List.mem_cons_of_mem a hr))
    refine ⟨natural_keys s :: ks, ?_⟩
    rw [List.mapM_cons]
    have hna : natsort_for_channel a = .ok (natural_keys s) := by
      unfold natsort_for_channel
      rw [hs]
    rw [hna, hks]
    rfl

theorem pySortedByChannel_ok_of {l : List ChRecord}
    (h : ∀ r ∈ l, r.channel ≠ none) :
    pySortedByChannel l = .ok (l.mergeSort chanLe) := by
  unfold pySortedByChannel
  obtain ⟨ks, hks⟩ := mapM_natsort_ok h
  rw [hks]
  rfl

/-! ## The natural-sort key on purely numeric strings -/

theorem splitChunks_all_digits : ∀ {cs : List Char}, cs ≠ [] →
    cs.all Char.isDigit = true → splitChunks cs = ([], [(cs, [])])
  | [], h, _ => absurd rfl h
  | [c], _, h2 => by
    have hc : c.isDigit = true := by simpa using h2
    simp [splitChunks, hc]
  | c :: c' :: cs, _, h2 => by
    have hc : c.isDigit = true := by
      simp [List.all_cons] at h2
      exact h2.1
    have ht : (c' :: cs).all Char.isDigit = true := by
      simp [List.all_cons] at h2 ⊢
      exact ⟨h2.2.1, h2.2.2⟩
    have ih := splitChunks_all_digits (List.cons_ne_nil c' cs) ht
    rw [splitChunks, ih, hc]
    simp

/-- On a nonempty all-digit string the natural-sort key is
`[str "", int value, str ""]`. -/
theorem natural_keys_all_digits {s : String} (h1 : s.data ≠ [])
    (h2 : s.data.all Char.isDigit = true) :
    natural_keys s = [.str "", .num (digitsToInt s.data), .str ""] := by
  unfold natural_keys
  rw [splitChunks_all_digits h1 h2]
  rfl

/-- Between two records whose channels are nonempty all-digit strings, the
Python comparator orders by numeric value. -/
theorem chanLe_digits {a b : ChRecord} {sa sb : String}
    (hca : a.channel = some sa) (hcb : b.channel = some sb)
    (ha1 : sa.data ≠ []) (ha2 : sa.data.all Char.isDigit = true)
    (hb1 : sb.data ≠ []) (hb2 : sb.data.all Char.isDigit = true) :
    chanLe a b = true ↔ digitsToInt sa.data ≤ digitsToInt sb.data := by
  unfold chanLe
  rw [hca, hcb]
  simp only [Option.getD_some]
  rw [natural_keys_all_digits ha1 ha2, natural_keys_all_digits hb1 hb2]
  simp [keyLt, keyChunkLt, pyStrLt]

unseal List.merge List.mergeSort in
/-- Stable two-element sort, used to evaluate `mergeSort` on symbolic pairs. -/
theorem mergeSort_pair {α : Type} (a b : α) (le : α → α → Bool) :
    List.mergeSort [a, b] le = if le a b then [a, b] else [b, a] := by
  cases h : le a b <;> simp [List.mergeSort, List.merge, h]

/-! ## Shared concrete inputs for the claim theorems -/

/-- A concrete fully resolved scan task: BS band, channel index 1, default
arguments. -/
def sampleTask : ChDef := mix_args (ChType.chdef ChType.bs 1) (parse_args [BandFlag.bs])

/-- C1: the claim asserts that on an unavailable tuner or malformed/empty
dump XML the pipeline returns `[]` instead of raising.  The source has no
`try`/`except`: `etree.parse` raises `XMLSyntaxError` on such output, and
`get_epg_from_record` propagates it — the result is an exception, not the
empty list. -/
theorem C1_counterexample :
    get_epg_from_record sampleTask (.error .xmlSyntaxError) = .error .xmlSyntaxError ∧
    get_epg_from_record sampleTask (.error .xmlSyntaxError) ≠ .ok [] := by
  exact ⟨rfl, fun h => Except.noConfusion h⟩

/-- C1 (amended): the pipeline returns the empty sequence only in the
benign case that the dump output parses as well-formed XML containing zero
`<channel>` elements; when `etree.parse` fails on malformed or empty output
the `XMLSyntaxError` propagates, and `get_epg_for_chtype_mp` re-raises it to
its caller when consuming the pool results. -/
theorem C1_amended_failure_propagates :
    (∀ chdef : ChDef, get_epg_from_record chdef (.ok []) = .ok []) ∧
    (∀ (chdef : ChDef) (e : PyErr), get_epg_from_record chdef (.error e) = .error e) ∧
    get_epg_for_chtype_mp ChType.bs (parse_args [BandFlag.bs])
      (pool_imap_results (scan_tasks ChType.bs (parse_args [BandFlag.bs]))
        (fun _ => .error .xmlSyntaxError)) = .error .xmlSyntaxError := by
  refine ⟨fun chdef => rfl, fun chdef e => rfl, ?_⟩
  decide

/-- C2: for the satellite bands the merge output never contains two records
with the same service identifier, and exactly the input's service
identifiers survive. -/
theorem C2_dedup_unique_serviceIds (t : String) (ht : t = "BS" ∨ t = "CS")
    (channels out : List ChRecord)
    (h : remove_duplicate_service t channels = .ok out) :
    out.Pairwise (fun a b => a.serviceId ≠ b.serviceId) ∧
    (∀ s : Int, (∃ r ∈ out, r.serviceId = s) ↔ (∃ r ∈ channels, r.serviceId = s)) := by
  have hne : t ≠ "GR" := by rcases ht with rfl | rfl <;> decide
  unfold remove_duplicate_service at h
  rw [if_neg hne] at h
  have hout : out = ((groupRuns key_func
      (channels.mergeSort (fun a b => decide (key_func a ≤ key_func b)))).filterMap
        find_nonnull_ch).mergeSort chanLe := pySortedByChannel_ok h
  set data := channels.mergeSort (fun a b => decide (key_func a ≤ key_func b)) with hdata
  set groups := groupRuns key_func data with hgroups
  set result := groups.filterMap find_nonnull_ch with hres
  have hsorted : data.Pairwise (fun x y => key_func x ≤ key_func y) := by
    have hs := List.sorted_mergeSort (fun a b c h1 h2 => sidLe_trans a b c h1 h2)
      (fun a b => sidLe_total a b) channels
    exact hs.imp (fun hab => by simpa using hab)
  have hpair := groupRuns_pairwise key_func data hsorted
  have huniq : result.Pairwise (fun a b => a.serviceId ≠ b.serviceId) := by
    apply pairwise_filterMap_of
    apply hpair.imp
    intro g1 g2 hgh x y hx hy
    exact hgh x (find_nonnull_ch_mem hx) y (find_nonnull_ch_mem hy)
  have hperm : out.Perm result := by
    rw [hout]
    exact List.mergeSort_perm result chanLe
  have hdataperm : data.Perm channels := List.mergeSort_perm channels _
  have hflat : groups.flatten = data := groupRuns_flatten key_func data
  constructor
  · exact (List.Perm.pairwise_iff (fun hxy => Ne.symm hxy) hperm).mpr huniq
  · intro s
    constructor
    · rintro ⟨r, hr, rfl⟩
      obtain ⟨g, hgmem, hfind⟩ := List.mem_filterMap.mp (hperm.mem_iff.mp hr)
      have hrg : r ∈ g := find_nonnull_ch_mem hfind
      have hrd : r ∈ data := hflat ▸ List.mem_flatten.mpr ⟨g, hgmem, hrg⟩
      exact ⟨r, hdataperm.mem_iff.mp hrd, rfl⟩
    · rintro ⟨r, hr, rfl⟩
      have hrd : r ∈ data := hdataperm.mem_iff.mpr hr
      have hrf : r ∈ groups.flatten := hflat ▸ hrd
      obtain ⟨g, hg, hrg⟩ := List.mem_flatten.mp hrf
      have hgne : g ≠ [] := groupRuns_ne_nil key_func data g hg
      obtain ⟨q, hq⟩ := find_nonnull_ch_isSome hgne
      have hqg : q ∈ g := find_nonnull_ch_mem hq
      have hkey : q.serviceId = r.serviceId :=
        groupRuns_key_const key_func data g hg q hqg r hrg
      have hqres : q ∈ result := List.mem_filterMap.mpr ⟨g, hg, hq⟩
      exact ⟨q, hperm.mem_iff.mpr hqres, hkey⟩

/-- Concrete records for the C2 witness: two BS records share service
identifier 101, a third has 205. -/
def chanDupA : ChRecord := ⟨"BS", some "", some "BS3_0", 101, false⟩

def chanDupB : ChRecord := ⟨"BS", some "NHK", some "BS1_0", 101, false⟩

def chanSingle : ChRecord := ⟨"BS", some "XTV", some "BS5_0", 205, false⟩

unseal List.merge List.mergeSort in
/-- Witness for C2 at a concrete input. -/
theorem C2_witness :
    remove_duplicate_service "BS" [chanSingle, chanDupA, chanDupB] =
      .ok [chanDupB, chanSingle] ∧
    ([chanDupB, chanSingle] : List ChRecord).Pairwise
      (fun a b => a.serviceId ≠ b.serviceId) := by
  have h : remove_duplicate_service "BS" [chanSingle, chanDupA, chanDupB] =
      .ok [chanDupB, chanSingle] := by decide
  exact ⟨h, (C2_dedup_unique_serviceIds "BS" (Or.inl rfl) _ _ h).1⟩

/-- `Except.ok` on the left of a monadic bind reduces. -/
theorem exceptBind_ok {ε α β : Type} (a : α) (f : α → Except ε β) :
    (Except.ok a >>= f) = f a := rfl

/-- `Except.error` on the left of a monadic bind short-circuits. -/
theorem exceptBind_error {ε α β : Type} (e : ε) (f : α → Except ε β) :
    ((Except.error e : Except ε α) >>= f) = Except.error e := rfl

/-- C3: in the satellite merge, `find_nonnull_ch` prefers any record with a
truthy (non-null, non-empty) display name over unnamed ones; in particular,
merging exactly two records with equal service identifiers, one with a
falsy name and one named `"NHK"`, keeps the `"NHK"` record — in either
input order. -/
theorem C3_merge_prefers_named :
    (∀ (gl : List ChRecord) (r : ChRecord), r ∈ gl → pyTruthy r.name = true →
      ∃ q, find_nonnull_ch gl = some q ∧ pyTruthy q.name = true) ∧
    (∀ a b : ChRecord, a.serviceId = b.serviceId → pyTruthy a.name = false →
      b.name = some "NHK" → ∀ cb, b.channel = some cb →
      remove_duplicate_service "BS" [a, b] = .ok [b] ∧
      remove_duplicate_service "BS" [b, a] = .ok [b]) := by
  refine ⟨fun gl r hr ht => find_nonnull_ch_truthy hr ht, ?_⟩
  intro a b hsid hname hnhk cb hcb
  have hbt : pyTruthy b.name = true := by rw [hnhk]; decide
  have hsort1 : pySortedByChannel [b] = .ok [b] := by
    have := pySortedByChannel_ok_of (l := [b]) (by
      intro r hr
      rw [List.mem_singleton.mp hr, hcb]
      exact fun hc => Option.noConfusion hc)
    rwa [List.mergeSort_singleton] at this
  have hfind1 : find_nonnull_ch [a, b] = some b := by
    unfold find_nonnull_ch
    simp [List.filter, hname, hbt]
  have hfind2 : find_nonnull_ch [b, a] = some b := by
    unfold find_nonnull_ch
    simp [List.filter, hname, hbt]
  constructor
  · unfold remove_duplicate_service
    rw [if_neg (by decide : ("BS" : String) ≠ "GR")]
    have hdata : List.mergeSort [a, b] (fun x y => decide (key_func x ≤ key_func y)) =
        [a, b] := by
      rw [mergeSort_pair]
      simp [key_func, hsid]
    have hgroup : groupRuns key_func [a, b] = [[a, b]] := by
      simp [groupRuns, key_func, hsid]
    simp only [hdata, hgroup, List.filterMap_cons, List.filterMap_nil, hfind1]
    exact hsort1
  · unfold remove_duplicate_service
    rw [if_neg (by decide : ("BS" : String) ≠ "GR")]
    have hdata : List.mergeSort [b, a] (fun x y => decide (key_func x ≤ key_func y)) =
        [b, a] := by
      rw [mergeSort_pair]
      simp [key_func, hsid]
    have hgroup : groupRuns key_func [b, a] = [[b, a]] := by
      simp [groupRuns, key_func, hsid]
    simp only [hdata, hgroup, List.filterMap_cons, List.filterMap_nil, hfind2]
    exact hsort1

/-- Concrete records for the C3 witness. -/
def recNoName : ChRecord := ⟨"BS", some "", some "BS1_0", 101, false⟩

def recNHK : ChRecord := ⟨"BS", some "NHK", some "BS1_0", 101, false⟩

/-- Witness for C3 at the claim's concrete input. -/
theorem C3_witness :
    pyTruthy recNoName.name = false ∧ recNHK.name = some "NHK" ∧
    recNoName.serviceId = recNHK.serviceId ∧
    remove_duplicate_service "BS" [recNoName, recNHK] = .ok [recNHK] := by
  refine ⟨by decide, rfl, rfl, ?_⟩
  exact (C3_merge_prefers_named.2 recNoName recNHK rfl (by decide) rfl
    "BS1_0" rfl).1

/-! ## Concrete end-to-end scenario for C4 -/

/-- Arguments when only `--bs` is given. -/
def argsBS : Args := parse_args [BandFlag.bs]

/-- Stub dump for C4: the task for recorder channel `BS1_0` yields two
`<channel>` elements sharing service identifier 101, named `""` and
`"TestCh"`, both reporting tp attribute `"BS1_0"`; every other task yields
well-formed XML with no channels. -/
def envBS1 : ChDef → Except PyErr (List XmlChannel) := fun c =>
  if c.ch_rec = "BS1_0" then
    .ok [⟨some "BS1_0", [("display-name", some ""), ("service_id", some "101")]⟩,
         ⟨some "BS1_0", [("display-name", some "TestCh"), ("service_id", some "101")]⟩]
  else .ok []

/-- The same stub except the dump reports tp attribute `"TP9"` for both
elements. -/
def envTP9 : ChDef → Except PyErr (List XmlChannel) := fun c =>
  if c.ch_rec = "BS1_0" then
    .ok [⟨some "TP9", [("display-name", some ""), ("service_id", some "101")]⟩,
         ⟨some "TP9", [("display-name", some "TestCh"), ("service_id", some "101")]⟩]
  else .ok []

unseal List.merge List.mergeSort in
/-- C4: the claim asserts the output record's `channel` field is the
recorder-channel string computed by the Scan Task Builder.  It is not: line
101 of the source copies the `tp` attribute of the XML `<channel>` element.
A stub dump meeting the claim's constraints (two elements, service
identifier 101, names `""`/`"TestCh"`) but reporting tp `"TP9"` produces the
record with channel `"TP9"`, not the builder's `"BS1_0"`. -/
theorem C4_counterexample :
    get_epg_for_chtype_mp ChType.bs argsBS
      (pool_imap_results (scan_tasks ChType.bs argsBS) envTP9) =
      .ok [⟨"BS", some "TestCh", some "TP9", 101, false⟩] ∧
    ChType.format_recorder ChType.bs 1 = "BS1_0" ∧
    (⟨"BS", some "TestCh", some "TP9", 101, false⟩ : ChRecord).channel ≠
      some (ChType.format_recorder ChType.bs 1) := by
  exact ⟨by decide, rfl, by decide⟩

unseal List.merge List.mergeSort in
/-- C4 (amended): with the stub's elements carrying tp attribute `"BS1_0"`
(the value epgdump reports for the transponder the builder tuned), the
end-to-end BS run delivers, for every completion order of the worker pool,
exactly one record `{type BS, name TestCh, channel BS1_0, serviceId 101,
isDisabled false}`; the channel field is the XML tp attribute, which here
coincides with the builder's recorder string. -/
theorem C4_amended_end_to_end (completion : List (Except PyErr (List ChRecord)))
    (hperm : completion.Perm (pool_imap_results (scan_tasks ChType.bs argsBS) envBS1)) :
    get_epg_for_chtype_mp ChType.bs argsBS completion =
      .ok [⟨"BS", some "TestCh", some "BS1_0", 101, false⟩] := by
  have hbase : collect (pool_imap_results (scan_tasks ChType.bs argsBS) envBS1) =
      .ok [[⟨"BS", some "", some "BS1_0", 101, false⟩,
            ⟨"BS", some "TestCh", some "BS1_0", 101, false⟩],
           [], [], [], [], [], [], [], [], [], [], []] := by decide
  obtain ⟨l', hl', hp⟩ := collect_perm hperm.symm hbase
  have hfil : l'.filter (fun ch => decide (0 < ch.length)) =
      [[⟨"BS", some "", some "BS1_0", 101, false⟩,
        ⟨"BS", some "TestCh", some "BS1_0", 101, false⟩]] := by
    have h1 := hp.filter (fun ch : List ChRecord => decide (0 < ch.length))
    have h2 : ([[⟨"BS", some "", some "BS1_0", 101, false⟩,
          ⟨"BS", some "TestCh", some "BS1_0", 101, false⟩],
         [], [], [], [], [], [], [], [], [], [], []] :
        List (List ChRecord)).filter (fun ch => decide (0 < ch.length)) =
        [[⟨"BS", some "", some "BS1_0", 101, false⟩,
          ⟨"BS", some "TestCh", some "BS1_0", 101, false⟩]] := by decide
    rw [h2] at h1
    exact List.perm_singleton.mp h1.symm
  have hgather : gather l' =
      [⟨"BS", some "", some "BS1_0", 101, false⟩,
       ⟨"BS", some "TestCh", some "BS1_0", 101, false⟩] := by
    unfold gather
    rw [hfil]
    decide
  unfold get_epg_for_chtype_mp
  rw [hl', exceptBind_ok, hgather]
  decide

/-- Witness for C4 at the submission-order completion. -/
theorem C4_witness :
    (pool_imap_results (scan_tasks ChType.bs argsBS) envBS1).Perm
      (pool_imap_results (scan_tasks ChType.bs argsBS) envBS1) ∧
    get_epg_for_chtype_mp ChType.bs argsBS
      (pool_imap_results (scan_tasks ChType.bs argsBS) envBS1) =
      .ok [⟨"BS", some "TestCh", some "BS1_0", 101, false⟩] :=
  ⟨List.Perm.refl _, C4_amended_end_to_end _ (List.Perm.refl _)⟩

/-! ## Concrete run for C5: flags requested as `--cs --gr` -/

/-- Arguments parsed from the request order `--cs --gr`. -/
def argsCsGr : Args := parse_args [BandFlag.cs, BandFlag.gr]

/-- Stub dump for C5: terrestrial channel 13 carries one service, CS channel
ND2 carries one service, everything else is empty. -/
def envC5 : ChDef → Except PyErr (List XmlChannel) := fun c =>
  if c.ch_rec = "13" then
    .ok [⟨some "13", [("display-name", some "GTV"), ("service_id", some "1024")]⟩]
  else if c.ch_rec = "CS2" then
    .ok [⟨some "CS2", [("display-name", some "CTV"), ("service_id", some "2048")]⟩]
  else .ok []

/-- Submission-order pool completions for each band under `envC5`. -/
def complC5 : ChType → List (Except PyErr (List ChRecord)) := fun t =>
  pool_imap_results (scan_tasks t argsCsGr) envC5

/-- The terrestrial record found by the stub. -/
def recGTV : ChRecord := ⟨"GR", some "GTV", some "13", 1024, false⟩

/-- The CS record found by the stub. -/
def recCTV : ChRecord := ⟨"CS", some "CTV", some "CS2", 2048, false⟩

unseal List.merge List.mergeSort in
/-- C5: the claim asserts per-type results are concatenated in the order the
band flags were requested on the command line.  With the request order
`--cs --gr` the output would then start with the CS record; the code instead
appends the types in the fixed textual order GR, BS, CS of lines 163-166
(`argparse` `store_true` flags cannot even convey request order), so the GR
record comes first. -/
theorem C5_counterexample :
    all_definitions argsCsGr complC5 = .ok [recGTV, recCTV] ∧
    main_chtypes argsCsGr = [ChType.gr, ChType.cs] ∧
    ([recGTV, recCTV] : List ChRecord) ≠ [recCTV, recGTV] := by
  exact ⟨by decide, by decide, by decide⟩

/-- C5 (amended): the Run Orchestrator processes the enabled channel types
and concatenates their per-type results in the fixed band order GR
(terrestrial), BS, CS, regardless of the order in which the band flags were
requested: the processed list is the canonical `[GR, BS, CS]` filtered by
flag presence, and any two command lines enabling the same set of flags
produce identical output. -/
theorem C5_amended_fixed_band_order :
    (∀ argv : List BandFlag, main_chtypes (parse_args argv) =
      [ChType.gr, ChType.bs, ChType.cs].filter
        (fun t => argv.contains (flagChType t))) ∧
    (∀ argv₁ argv₂ : List BandFlag, (∀ f, f ∈ argv₁ ↔ f ∈ argv₂) →
      ∀ compl, all_definitions (parse_args argv₁) compl =
        all_definitions (parse_args argv₂) compl) := by
  have hpa : ∀ argv₁ argv₂ : List BandFlag, (∀ f, f ∈ argv₁ ↔ f ∈ argv₂) →
      parse_args argv₁ = parse_args argv₂ := by
    intro argv₁ argv₂ hiff
    have hco : ∀ f : BandFlag, argv₁.contains f = argv₂.contains f := by
      intro f
      cases h1 : argv₁.contains f <;> cases h2 : argv₂.contains f
      · rfl
      · have hm : argv₁.contains f = true :=
          List.elem_iff.mpr ((hiff f).mpr (List.elem_iff.mp h2))
        rw [h1] at hm
        exact Bool.noConfusion hm
      · have hm : argv₂.contains f = true :=
          List.elem_iff.mpr ((hiff f).mp (List.elem_iff.mp h1))
        rw [h2] at hm
        exact Bool.noConfusion hm
      · rfl
    unfold parse_args
    rw [hco BandFlag.gr, hco BandFlag.bs, hco BandFlag.cs]
  constructor
  · intro argv
    unfold main_chtypes parse_args
    cases hg : decide (BandFlag.gr ∈ argv) <;> cases hb : decide (BandFlag.bs ∈ argv) <;>
      cases hc : decide (BandFlag.cs ∈ argv) <;>
      simp [List.filter, flagChType, hg, hb, hc]
  · intro argv₁ argv₂ hiff compl
    rw [hpa argv₁ argv₂ hiff]

/-- Witness for C5 (amended) at the flag sets `[gr, cs]` and `[cs, gr]`. -/
theorem C5_witness :
    (∀ f : BandFlag, f ∈ [BandFlag.gr, BandFlag.cs] ↔ f ∈ [BandFlag.cs, BandFlag.gr]) ∧
    all_definitions (parse_args [BandFlag.gr, BandFlag.cs]) complC5 =
      all_definitions (parse_args [BandFlag.cs, BandFlag.gr]) complC5 :=
  ⟨by intro f; cases f <;> simp,
   C5_amended_fixed_band_order.2 [BandFlag.gr, BandFlag.cs] [BandFlag.cs, BandFlag.gr]
     (by intro f; cases f <;> simp) complC5⟩

/-! ## Concrete records for C6: purely numeric recorder strings -/

/-- A GR record with recorder string `"2"`. -/
def recNum2 : ChRecord := ⟨"GR", some "a", some "2", 1, false⟩

/-- A GR record with recorder string `"10"`. -/
def recNum10 : ChRecord := ⟨"GR", some "b", some "10", 2, false⟩

/-- A GR record with recorder string `"1"`. -/
def recNum1 : ChRecord := ⟨"GR", some "c", some "1", 3, false⟩

unseal List.merge List.mergeSort in
/-- C6: the natural-order comparator turns digit runs into integers (and
leaves the other pieces as strings, compared lexically), so sorting
records whose recorder strings are purely numeric orders them by numeric
value; in particular `["2", "10", "1"]` sorts to `["1", "2", "10"]`, not to
the lexical `["1", "10", "2"]`. -/
theorem C6_natural_sort_numeric :
    (∀ l out : List ChRecord,
      (∀ r ∈ l, ∃ s, r.channel = some s ∧ s.data ≠ [] ∧
        s.data.all Char.isDigit = true) →
      remove_duplicate_service "GR" l = .ok out →
      out.Perm l ∧ out.Pairwise (fun a b =>
        digitsToInt (a.channel.getD "").data ≤ digitsToInt (b.channel.getD "").data)) ∧
    remove_duplicate_service "GR" [recNum2, recNum10, recNum1] =
      .ok [recNum1, recNum2, recNum10] := by
  constructor
  · intro l out hdig h
    have hout : out = l.mergeSort chanLe := by
      unfold remove_duplicate_service at h
      rw [if_pos rfl] at h
      exact pySortedByChannel_ok h
    have hperm : out.Perm l := by
      rw [hout]
      exact List.mergeSort_perm l chanLe
    refine ⟨hperm, ?_⟩
    have hsorted : out.Pairwise (fun a b => chanLe a b = true) := by
      rw [hout]
      exact List.sorted_mergeSort (fun a b c h1 h2 => chanLe_trans a b c h1 h2)
        (fun a b => chanLe_total a b) l
    refine List.Pairwise.imp_of_mem ?_ hsorted
    intro x y hx hy hxy
    obtain ⟨sx, hsx, hx1, hx2⟩ := hdig x (hperm.mem_iff.mp hx)
    obtain ⟨sy, hsy, hy1, hy2⟩ := hdig y (hperm.mem_iff.mp hy)
    have hv := (chanLe_digits hsx hsy hx1 hx2 hy1 hy2).mp hxy
    rw [hsx, hsy]
    simpa using hv
  · decide

unseal List.merge List.mergeSort in
/-- Witness for C6's universally quantified part at the concrete input. -/
theorem C6_witness :
    (∀ r ∈ ([recNum2, recNum10, recNum1] : List ChRecord), ∃ s,
      r.channel = some s ∧ s.data ≠ [] ∧ s.data.all Char.isDigit = true) ∧
    ([recNum1, recNum2, recNum10] : List ChRecord).Pairwise (fun a b =>
      digitsToInt (a.channel.getD "").data ≤ digitsToInt (b.channel.getD "").data) := by
  have hdig : ∀ r ∈ ([recNum2, recNum10, recNum1] : List ChRecord), ∃ s,
      r.channel = some s ∧ s.data ≠ [] ∧ s.data.all Char.isDigit = true := by
    intro r hr
    rcases List.mem_cons.mp hr with rfl | hr
    · exact ⟨"2", rfl, by decide, by decide⟩
    rcases List.mem_cons.mp hr with rfl | hr
    · exact ⟨"10", rfl, by decide, by decide⟩
    rcases List.mem_cons.mp hr with rfl | hr
    · exact ⟨"1", rfl, by decide, by decide⟩
    · exact absurd hr (List.not_mem_nil r)
  have h : remove_duplicate_service "GR" [recNum2, recNum10, recNum1] =
      .ok [recNum1, recNum2, recNum10] := by decide
  exact ⟨hdig, (C6_natural_sort_numeric.1 _ _ hdig h).2⟩

/-! ## XML-parsing claims -/

/-- Prepending folds preserve membership of the initial entries. -/
theorem mem_foldl_prepend (x : String × Option String) :
    ∀ (cs m : List (String × Option String)), x ∈ m →
      x ∈ cs.foldl (fun m ti => (ti.1, ti.2) :: m) m
  | [], _, hx => hx
  | c :: cs, m, hx =>
    mem_foldl_prepend x cs ((c.1, c.2) :: m) (List.mem_cons_of_mem _ hx)

/-- The `ch_spec` dict always holds a `tp` entry (placed there from the
attribute at line 94), so the `ch_spec['tp']` lookup at line 101 cannot
fail. -/
theorem pyDictGet_tp_ok (tpv : String) (children : List (String × Option String)) :
    ∃ cv, pyDictGet (build_ch_spec tpv children) "tp" = .ok cv := by
  have hmem : ("tp", some tpv) ∈ build_ch_spec tpv children :=
    mem_foldl_prepend _ children _ (List.mem_cons_self _ _)
  have hsome : ((build_ch_spec tpv children).find?
      (fun p => decide (p.1 = "tp"))).isSome := by
    rw [List.find?_isSome]
    exact ⟨("tp", some tpv), hmem, by simp⟩
  unfold pyDictGet
  cases hf : (build_ch_spec tpv children).find? (fun p => decide (p.1 = "tp")) with
  | none => rw [hf] at hsome; exact Bool.noConfusion hsome
  | some p => exact ⟨p.2, rfl⟩

/-- C7: whenever the `service_id` entry of a `<channel>` element's tag/text
dict is absent, null, or not parseable by `int()`, `xml_to_epg` raises an
exception for that record instead of producing one. -/
theorem C7_unparsable_serviceId_raises (chdef : ChDef) (channel : XmlChannel)
    (h : ∀ tpv t, channel.tp = some tpv →
      pyDictGet (build_ch_spec tpv channel.children) "service_id" = .ok (some t) →
      ∀ n, pyInt t ≠ .ok n) :
    ∃ e, xml_to_epg chdef channel = .error e := by
  unfold xml_to_epg
  cases htp : channel.tp with
  | none => exact ⟨.keyError, rfl⟩
  | some tpv =>
    simp only [exceptBind_ok]
    cases hname : pyDictGet (build_ch_spec tpv channel.children) "display-name" with
    | error e => exact ⟨e, rfl⟩
    | ok nm =>
      simp only [exceptBind_ok]
      cases hchan : pyDictGet (build_ch_spec tpv channel.children) "tp" with
      | error e => exact ⟨e, rfl⟩
      | ok cv =>
        simp only [exceptBind_ok]
        cases hsid : pyDictGet (build_ch_spec tpv channel.children) "service_id" with
        | error e => exact ⟨e, rfl⟩
        | ok sidText =>
          simp only [exceptBind_ok]
          cases sidText with
          | none => exact ⟨.typeError, rfl⟩
          | some t =>
            simp only [pyIntOfText]
            cases hint : pyInt t with
            | error e => exact ⟨e, rfl⟩
            | ok n => exact absurd hint (h tpv t htp hsid n)

/-- A channel element whose `service_id` child is absent entirely. -/
def chanNoSid : XmlChannel := ⟨some "BS1_0", [("display-name", some "X")]⟩

/-- Witness for C7: a channel with no `service_id` child at all. -/
theorem C7_witness :
    (∀ tpv t, chanNoSid.tp = some tpv →
      pyDictGet (build_ch_spec tpv chanNoSid.children) "service_id" = .ok (some t) →
      ∀ n, pyInt t ≠ .ok n) ∧
    ∃ e, xml_to_epg sampleTask chanNoSid = .error e := by
  have hhyp : ∀ tpv t, chanNoSid.tp = some tpv →
      pyDictGet (build_ch_spec tpv chanNoSid.children) "service_id" = .ok (some t) →
      ∀ n, pyInt t ≠ .ok n := by
    intro tpv t htp hsid n
    have htpv : tpv = "BS1_0" := by
      have h1 : some ("BS1_0" : String) = some tpv := htp
      exact (Option.some.inj h1).symm
    subst htpv
    have hget : pyDictGet (build_ch_spec "BS1_0" chanNoSid.children) "service_id" =
        .error .keyError := by decide
    rw [hget] at hsid
    exact Except.noConfusion hsid
  exact ⟨hhyp, C7_unparsable_serviceId_raises sampleTask chanNoSid hhyp⟩

/-- C8: the spec (and the dead `del ch['serviceId']` branch at lines
105-106) intend that a channel whose `service_id` text is null produces a
mapping that simply omits the `serviceId` key.  The code instead evaluates
`int(ch_spec['service_id'])` at line 102 first, which raises `TypeError` on
`None` before the `del` branch can run: no mapping is produced at all. -/
theorem C8_null_serviceId_raises_TypeError :
    xml_to_epg sampleTask
      ⟨some "BS1_0", [("display-name", some "X"), ("service_id", none)]⟩ =
      .error .typeError := by
  decide

/-- C9: the claim asserts a channel with no `display-name` child parses to a
record with a null name.  It does not: line 100 subscripts
`ch_spec['display-name']`, which raises `KeyError` when no child carried
that tag — here with a perfectly valid `service_id` present. -/
theorem C9_counterexample :
    xml_to_epg sampleTask ⟨some "BS1_0", [("service_id", some "101")]⟩ =
      .error .keyError := by
  decide

/-- C9 (amended): a channel whose `display-name` child is present but has
null text (lxml reports the text of an empty element as `None`) parses to a
record with a null name, without raising; absence of the child, by
contrast, raises `KeyError` (see the counterexample). -/
theorem C9_amended_null_name (chdef : ChDef) (channel : XmlChannel)
    (tpv s : String) (n : Int)
    (htp : channel.tp = some tpv)
    (hname : pyDictGet (build_ch_spec tpv channel.children) "display-name" = .ok none)
    (hsid : pyDictGet (build_ch_spec tpv channel.children) "service_id" = .ok (some s))
    (hint : pyInt s = .ok n) :
    ∃ r, xml_to_epg chdef channel = .ok r ∧ r.name = none := by
  obtain ⟨cv, hchan⟩ := pyDictGet_tp_ok tpv channel.children
  unfold xml_to_epg
  rw [htp]
  simp only [exceptBind_ok, hname, hchan, hsid, pyIntOfText, hint]
  exact ⟨⟨chdef.type, none, cv, n, false⟩, rfl, rfl⟩

/-- A channel element whose `display-name` child is present with null
text. -/
def chanNullName : XmlChannel :=
  ⟨some "BS1_0", [("display-name", none), ("service_id", some "101")]⟩

/-- Witness for C9 (amended). -/
theorem C9_witness :
    pyDictGet (build_ch_spec "BS1_0" chanNullName.children) "display-name" = .ok none ∧
    ∃ r, xml_to_epg sampleTask chanNullName = .ok r ∧ r.name = none :=
  ⟨by decide,
   C9_amended_null_name sampleTask chanNullName "BS1_0" "101" 101 rfl
     (by decide) (by decide) (by decide)⟩
